import Mathlib

/-!
Shallow embedding of the gdriveagent RAG application, covering the
ingestion pipeline, progress tracker, content extractor, query router and
LLM provider fallback executor, together with proofs of the spec claims.

External collaborators (Google Drive, the PDF/DOCX/XLSX decoders, the
text splitter, the embedding service and the chat LLM providers) are
modelled as explicit environment parameters: each `await`ed call that may
throw in the source is an `Except String _` value supplied by the
environment.  Machine control flow (try/catch, early returns, `for`
loops) is translated into explicit case analysis and recursion.
-/

namespace GDrive

/-! ### Generic string and association-list helpers -/

/-- Boolean prefix test on character lists (helper for `strIncludes`). -/
def chPrefixOf : List Char → List Char → Bool
  | [], _ => true
  | _ :: _, [] => false
  | a :: as, b :: bs => a == b && chPrefixOf as bs

/-- Boolean substring test on character lists: does `s` contain `pat`? -/
def chSubOf (pat : List Char) : List Char → Bool
  | [] => chPrefixOf pat []
  | c :: t => chPrefixOf pat (c :: t) || chSubOf pat t

/-- Model of JavaScript `s.includes(pat)`: substring containment. -/
def strIncludes (s pat : String) : Bool :=
  chSubOf pat.data s.data

/-- Model of JavaScript `s.toLowerCase()` (character-wise lowering; the
messages and names compared in the source are ASCII). -/
def strToLower (s : String) : String :=
  ⟨s.data.map Char.toLower⟩

/-- Model of the JavaScript truthiness test `!content.trim()`:
a string is blank iff every character is whitespace. -/
def isBlank (s : String) : Bool :=
  s.data.all Char.isWhitespace

/-- Lookup in an association list keyed by strings (models `Map.get`). -/
def alGet {α : Type} (m : List (String × α)) (k : String) : Option α :=
  match m with
  | [] => none
  | (k', v) :: t => if k' = k then some v else alGet t k

/-- Key-presence test (models `Map.has`). -/
def alHas {α : Type} (m : List (String × α)) (k : String) : Bool :=
  (alGet m k).isSome

/-- Insert-or-overwrite (models `Map.set`). -/
def alSet {α : Type} (m : List (String × α)) (k : String) (v : α) :
    List (String × α) :=
  match m with
  | [] => [(k, v)]
  | (k', v') :: t => if k' = k then (k, v) :: t else (k', v') :: alSet t k v

/-! ### Content Extractor (`parseFileContent` in `app/api/ingest/route.ts`) -/

/-- The MIME types with a dedicated decoder branch in `parseFileContent`'s
`switch`: PDF, DOCX, the two Excel types, and plain text. -/
def supportedMime (m : String) : Bool :=
  m == "application/pdf" ||
  m == "application/vnd.openxmlformats-officedocument.wordprocessingml.document" ||
  m == "application/vnd.openxmlformats-officedocument.spreadsheetml.sheet" ||
  m == "application/vnd.ms-excel" ||
  m == "text/plain"

/-- Model of `parseFileContent(fileBuffer, mimeType, fileName)`.  The per-type
decoder applied to the file's bytes is an external collaborator; its
outcome is the argument `decode` (`.ok text` for a successful extraction,
`.error msg` when the decoder throws with message `msg`).  The function's
own `try`/`catch` turns a decoder throw into the error placeholder, and
an unsupported MIME type yields the fixed "Manual review needed"
placeholder; in every case a string is returned (the function never
throws to its caller). -/
def parseFileContent (decode : Except String String)
    (mimeType fileName : String) : String :=
  if supportedMime mimeType then
    match decode with
    | .ok text => text
    | .error msg => "[Error parsing file: " ++ fileName ++ " - " ++ msg ++ "]"
  else
    "[File: " ++ fileName ++ " - Type: " ++ mimeType ++ " - Manual review needed]"

/-! ### Progress Tracker -/

/-- The progress record stored per session by `updateProgress` (the
`percentage` field is computed from the step ratio; all steps in the
source are small naturals, for which JavaScript's
`Math.floor((step / totalSteps) * 100)` equals natural division
`step * 100 / totalSteps`). -/
structure ProgressData where
  currentStep : Nat
  totalSteps : Nat
  currentFile : String
  status : String
  filesProcessed : Nat
  totalFiles : Nat
  percentage : Nat
  deriving Repr, DecidableEq

/-- The progress store: session id → progress record. -/
abbrev ProgressMap := List (String × ProgressData)

/-- Model of `updateProgress(sessionId, step, totalSteps, status, currentFile,
filesProcessed, totalFiles)`: overwrites the session's record and returns
the stored record (the source also logs it). -/
def updateProgress (m : ProgressMap) (sessionId : String)
    (step totalSteps : Nat) (status currentFile : String)
    (filesProcessed totalFiles : Nat) : ProgressMap × ProgressData :=
  let pd : ProgressData :=
    { currentStep := step
      totalSteps := totalSteps
      currentFile := currentFile
      status := status
      filesProcessed := filesProcessed
      totalFiles := totalFiles
      percentage := step * 100 / totalSteps }
  (alSet m sessionId pd, pd)

/-! ### Ingestion pipeline (`GET` in `app/api/ingest/route.ts`) -/

/-- A file listed by the Drive collaborator
(`files(id, name, mimeType, webViewLink)`). -/
structure DriveFile where
  id : String
  name : String
  mimeType : String
  webViewLink : Option String
  deriving Repr, DecidableEq

/-- A `Document` chunk as built in the per-file loop. -/
structure Chunk where
  pageContent : String
  fileName : String
  fileId : String
  mimeType : String
  webViewLink : Option String
  chunkIndex : Nat
  totalChunks : Nat
  deriving Repr, DecidableEq

/-- External-world outcomes of one ingestion request.  `fetchDecode i` is
the combined outcome for the `i`-th listed file: the outer `Except` is
the `drive.files.get` download (which may throw and is caught by the
per-file `catch`), the inner `Except` is the per-type decoder outcome
consumed by `parseFileContent` (whose throw is caught *inside*
`parseFileContent`).  `split` is `textSplitter.splitText` (may throw, the
throw reaching the per-file `catch`), `embed` is
`MemoryVectorStore.fromDocuments` (may throw, reaching the top-level
`catch`). -/
structure IngestEnv where
  hasClientEmail : Bool
  hasPrivateKey : Bool
  hasFolderId : Bool
  hasGeminiKey : Bool
  listing : Except String (List DriveFile)
  fetchDecode : Nat → Except String (Except String String)
  split : String → Except String (List String)
  embed : List Chunk → Except String Unit

/-- Mutable process state touched by the ingest route: the session-keyed
vector stores (an index is its list of chunks) and the progress map. -/
structure IngestState where
  vectorStores : List (String × List Chunk)
  progress : ProgressMap
  deriving Repr, DecidableEq

/-- The JSON responses that `GET /api/ingest` can produce. -/
inductive IngestResponse where
  /-- Cache hit: `{message: "Documents already processed…", status: "ready"}`. -/
  | readyCached (sessionId : String)
  /-- Missing environment variables (HTTP 500). -/
  | configError
  /-- Body `{message: "No files found in the specified folder."}` (HTTP 200). -/
  | noFiles
  /-- Body `{message: "No processable content found in documents."}` (HTTP 200). -/
  | noContent
  /-- Success: `{…, filesProcessed, totalChunks, status: "ready"}`. -/
  | readySuccess (sessionId : String) (files : List DriveFile) (totalChunks : Nat)
  /-- Top-level catch (HTTP 500) with the error message. -/
  | fatalError (msg : String)
  deriving Repr, DecidableEq

/-- The `status` field of the response body, when present. -/
def IngestResponse.statusField : IngestResponse → Option String
  | .readyCached _ => some "ready"
  | .readySuccess _ _ _ => some "ready"
  | _ => none

/-- The chunks contributed by the `i`-th file (empty when its fetch
throws, its extracted content is blank, or the splitter throws). -/
def fileDocs (env : IngestEnv) (i : Nat) (file : DriveFile) : List Chunk :=
  match env.fetchDecode i with
  | .error _ => []
  | .ok decode =>
    let content := parseFileContent decode file.mimeType file.name
    if isBlank content then []
    else
      match env.split content with
      | .error _ => []
      | .ok chunks =>
        chunks.mapIdx fun idx c =>
          { pageContent := c
            fileName := file.name
            fileId := file.id
            mimeType := file.mimeType
            webViewLink := file.webViewLink
            chunkIndex := idx
            totalChunks := chunks.length }

/-- One iteration of the per-file loop: emits the "Processing" update,
then either the "Processed" update (fetch and split succeeded, or content
was blank) or, when the fetch or the splitter throws, the
"Error processing" update from the per-file `catch`.  Returns the updated
progress map, the grown chunk accumulator and the two emitted records. -/
def processFile (env : IngestEnv) (sessionId : String) (totalFiles i : Nat)
    (file : DriveFile) (prog : ProgressMap) (acc : List Chunk) :
    ProgressMap × List Chunk × List ProgressData :=
  let currentFile := if file.name = "" then "file-" ++ toString (i + 1) else file.name
  let (prog1, pdStart) := updateProgress prog sessionId 5 10
    ("Processing: " ++ currentFile) currentFile i totalFiles
  let errStep (p : ProgressMap) : ProgressMap × List Chunk × List ProgressData :=
    let (p2, pdErr) := updateProgress p sessionId 5 10
      ("Error processing: " ++ (if file.name = "" then "unknown file" else file.name))
      file.name (i + 1) totalFiles
    (p2, acc, [pdStart, pdErr])
  let okStep (p : ProgressMap) (acc' : List Chunk) :
      ProgressMap × List Chunk × List ProgressData :=
    let (p2, pdDone) := updateProgress p sessionId 5 10
      ("Processed: " ++ currentFile) currentFile (i + 1) totalFiles
    (p2, acc', [pdStart, pdDone])
  match env.fetchDecode i with
  | .error _ => errStep prog1
  | .ok decode =>
    let content := parseFileContent decode file.mimeType file.name
    if isBlank content then okStep prog1 acc
    else
      match env.split content with
      | .error _ => errStep prog1
      | .ok _ => okStep prog1 (acc ++ fileDocs env i file)

/-- The sequential per-file loop (`for (let i = 0; …)`). -/
def processLoop (env : IngestEnv) (sessionId : String) (totalFiles : Nat) :
    List DriveFile → Nat → ProgressMap → List Chunk →
    ProgressMap × List Chunk × List ProgressData
  | [], _, prog, acc => (prog, acc, [])
  | f :: rest, i, prog, acc =>
    let step := processFile env sessionId totalFiles i f prog acc
    let restRes := processLoop env sessionId totalFiles rest (i + 1) step.1 step.2.1
    (restRes.1, restRes.2.1, step.2.2 ++ restRes.2.2)

/-- Steps 5–7 of the `GET` handler, entered with the non-empty file list
from the listing: the per-file loop, the empty-result check, index
construction (fatal on an embed throw) and caching.  `p6` is the
progress map and `pre` the update trace accumulated by the earlier
steps; the returned trace is the full run's trace. -/
def ingestProcess (env : IngestEnv) (st : IngestState) (sessionId : String)
    (files : List DriveFile) (p6 : ProgressMap) (pre : List ProgressData) :
    IngestState × IngestResponse × List ProgressData :=
  let loopRes := processLoop env sessionId files.length files 0 p6 []
  let p7 := loopRes.1
  let allDocuments := loopRes.2.1
  let loopTr := loopRes.2.2
  if allDocuments.isEmpty then
    let u := updateProgress p7 sessionId 10 10
      "No processable content found" "" 0 0
    ({ st with progress := u.1 }, .noContent, pre ++ (loopTr ++ [u.2]))
  else
    let u7 := updateProgress p7 sessionId 7 10
      ("Creating searchable index from " ++ toString allDocuments.length ++
        " document chunks...") "" 0 0
    match env.embed allDocuments with
    | .error msg =>
      let ue := updateProgress u7.1 sessionId 0 10 ("ERROR: " ++ msg) "" 0 0
      ({ st with progress := ue.1 }, .fatalError msg,
        pre ++ (loopTr ++ [u7.2, ue.2]))
    | .ok _ =>
      let u9 := updateProgress u7.1 sessionId 9 10
        "Finalizing document index..." "" 0 0
      let stores' := alSet st.vectorStores sessionId allDocuments
      let u10 := updateProgress u9.1 sessionId 10 10
        ("Successfully processed " ++ toString files.length ++
          " documents into " ++ toString allDocuments.length ++
          " searchable chunks") "" 0 0
      (⟨stores', u10.1⟩, .readySuccess sessionId files allDocuments.length,
        pre ++ (loopTr ++ [u7.2, u9.2, u10.2]))

/-- Steps 3–4 of the `GET` handler: the remote listing (fatal on throw),
the zero-files check, and the two pre-loop updates; continues into
`ingestProcess`. -/
def ingestListed (env : IngestEnv) (st : IngestState) (sessionId : String)
    (p4 : ProgressMap) (pre : List ProgressData) :
    IngestState × IngestResponse × List ProgressData :=
  match env.listing with
  | .error msg =>
    let ue := updateProgress p4 sessionId 0 10 ("ERROR: " ++ msg) "" 0 0
    ({ st with progress := ue.1 }, .fatalError msg, pre ++ [ue.2])
  | .ok files =>
    if files.isEmpty then
      let u := updateProgress p4 sessionId 10 10
        "No documents found in folder" "" 0 0
      ({ st with progress := u.1 }, .noFiles, pre ++ [u.2])
    else
      let totalFiles := files.length
      let u4 := updateProgress p4 sessionId 4 10
        ("Found " ++ toString totalFiles ++ " documents. Initializing processing...")
        "" 0 totalFiles
      let u5 := updateProgress u4.1 sessionId 5 10
        "Processing documents..." "" 0 totalFiles
      ingestProcess env st sessionId files u5.1 (pre ++ [u4.2, u5.2])

/-- The full `GET` handler: cache check, env-var validation, then the
listing and processing stages.  Returns the new state, the response, and
the ordered trace of all `updateProgress` records emitted during the
run. -/
def ingestGET (env : IngestEnv) (st : IngestState) (sessionId : String) :
    IngestState × IngestResponse × List ProgressData :=
  if alHas st.vectorStores sessionId then
    (st, .readyCached sessionId, [])
  else
    let u0 := updateProgress st.progress sessionId 0 10
      "Initializing connection to Google Drive..." "" 0 0
    if ¬ (env.hasClientEmail && env.hasPrivateKey && env.hasFolderId && env.hasGeminiKey) then
      let ue := updateProgress u0.1 sessionId 0 10
        "ERROR: Missing required configuration" "" 0 0
      ({ st with progress := ue.1 }, .configError, [u0.2, ue.2])
    else
      let u1 := updateProgress u0.1 sessionId 1 10
        "Creating Google Drive authentication..." "" 0 0
      let u2 := updateProgress u1.1 sessionId 2 10
        "Connecting to Google Drive API..." "" 0 0
      let u3 := updateProgress u2.1 sessionId 3 10
        "Scanning documents in folder..." "" 0 0
      ingestListed env st sessionId u3.1 [u0.2, u1.2, u2.2, u3.2]

/-! ### Progress read endpoint (`GET` in `app/api/ingest/progress/route.ts`) -/

/-- Responses of the progress read endpoint. -/
inductive ProgressGetResponse where
  /-- Body `{error: "Session ID is required"}` (HTTP 400). -/
  | missingSession
  /-- The progress record body (HTTP 200). -/
  | record (pd : ProgressData)
  deriving Repr, DecidableEq

/-- The progress `GET` handler: requires a `sessionId` query parameter,
returns the stored record with a freshly computed `percentage`, or the
zeroed "Not started" default when no record exists.  It only reads the
store (no side effects) and always produces a response. -/
def progressGET (store : ProgressMap) (sessionId : Option String) :
    ProgressGetResponse :=
  match sessionId with
  | none => .missingSession
  | some sid =>
    match alGet store sid with
    | none =>
      .record
        { currentStep := 0, totalSteps := 10, currentFile := "",
          status := "Not started", filesProcessed := 0, totalFiles := 0,
          percentage := 0 }
    | some p =>
      .record { p with percentage := p.currentStep * 100 / p.totalSteps }

/-! ### Query classification (`POST` in the chat route) -/

/-- JavaScript `\w`: ASCII letters, digits and underscore. -/
def isWordChar (c : Char) : Bool :=
  c.isDigit || ('a' ≤ c && c ≤ 'z') || ('A' ≤ c && c ≤ 'Z') || c == '_'

/-- Maximal runs of word characters in a character list (accumulator
holds the current run, reversed). -/
def wordRunsAux : List Char → List Char → List (List Char)
  | [], acc => if acc.isEmpty then [] else [acc.reverse]
  | c :: t, acc =>
    if isWordChar c then wordRunsAux t (c :: acc)
    else if acc.isEmpty then wordRunsAux t []
    else acc.reverse :: wordRunsAux t []

/-- Maximal word-character runs of a string. -/
def wordRuns (s : String) : List (List Char) :=
  wordRunsAux s.data []

/-- The first capture of `/\b(\d{6,12})\b/` on `s`: because `\b` demands a
word/non-word transition and `\w` includes letters, digits and `_`, the
regex matches exactly when some maximal word-character run consists
entirely of 6–12 digits, and captures the first such run. -/
def extractNumericId (s : String) : Option String :=
  ((wordRuns s).filter fun r =>
      r.all Char.isDigit && decide (6 ≤ r.length) && decide (r.length ≤ 12)).head?.map
    fun r => ⟨r⟩

/-- The route's regex classification results for one query:
`isOverviewQuery` (the overview keyword pattern), `fileNameMatch` (the
first capture of the filename pattern, when it matches),
`elevatorIdMatch` and `numericIdMatch` (first captures of the
elevator-keyword ID pattern and of the bare `\b(\d{6,12})\b` pattern).
For a query `q`, `numericIdMatch` is `extractNumericId q`. -/
structure QueryFlags where
  isOverviewQuery : Bool
  fileNameMatch : Option String
  elevatorIdMatch : Option String
  numericIdMatch : Option String
  deriving Repr, DecidableEq

/-! ### Query router (retrieval with escalation, chat route) -/

/-- A document returned by the session vector store in the chat route
(`pageContent` plus the metadata fields the route reads;
`elevatorIds` models the optional `metadata.elevatorIds` array, empty
when absent so that `elevatorIds?.includes(x)` is false). -/
structure ChatDoc where
  pageContent : String
  fileName : String
  fileId : String
  chunkIndex : Nat
  elevatorIds : List String
  deriving Repr, DecidableEq

/-- Model of `vectorStore.similaritySearch(query, k)`: the store ranks its whole
corpus for the query (`rank query`) and returns the top `k`. -/
def similaritySearch (rank : String → List ChatDoc) (query : String)
    (k : Nat) : List ChatDoc :=
  (rank query).take k

/-- The containment test used by the elevator-ID escalation:
content substring, filename substring, or identifier-tag membership. -/
def docMatchesId (id : String) (d : ChatDoc) : Bool :=
  strIncludes d.pageContent id || strIncludes d.fileName id ||
    d.elevatorIds.contains id

/-- The alternative search terms tried when the expanded elevator-ID
search still finds nothing. -/
def altSearchTerms (id : String) : List String :=
  [id, "elevator " ++ id, "lift " ++ id, "nr " ++ id, "number " ++ id,
    id.take 6, id.drop 1, "0" ++ id]

/-- The `for (const altTerm of altSearchTerms)` loop: the first term
whose 50-result search yields a containment match replaces
`relevantDocs` by the matches followed by the first two previous results;
if the list is exhausted `relevantDocs` is unchanged. -/
def altTermLoop (rank : String → List ChatDoc) (id : String)
    (relevantDocs : List ChatDoc) : List String → List ChatDoc
  | [] => relevantDocs
  | term :: rest =>
    let altDocs := similaritySearch rank term 50
    let altMatches := altDocs.filter fun d =>
      strIncludes d.pageContent id || strIncludes d.pageContent term ||
        strIncludes d.fileName id
    if altMatches.isEmpty then altTermLoop rank id relevantDocs rest
    else altMatches ++ relevantDocs.take 2

/-- The filename escalation (`if (fileNameMatch && !isOverviewQuery)`):
when no primary result's file name contains the captured token, re-query
with N = 20, filter by (lower-cased) filename containment, and when
matches exist put them ahead of the first two semantic results. -/
def fileNameEscalation (rank : String → List ChatDoc) (query term : String)
    (relevantDocs : List ChatDoc) : List ChatDoc :=
  if relevantDocs.any (fun d =>
      strIncludes (strToLower d.fileName) (strToLower term)) then
    relevantDocs
  else
    let expandedDocs := similaritySearch rank query 20
    let fileMatchedDocs := expandedDocs.filter fun d =>
      strIncludes (strToLower d.fileName) (strToLower term)
    if fileMatchedDocs.isEmpty then relevantDocs
    else fileMatchedDocs ++ relevantDocs.take 2

/-- The elevator-ID escalation (`if ((elevatorIdMatch || numericIdMatch)
&& !isOverviewQuery)`): when no current result matches the identifier,
search the identifier itself with N = 100 and filter by containment;
when that is still empty, run the alternative-term loop. -/
def elevatorEscalation (rank : String → List ChatDoc) (id : String)
    (relevantDocs : List ChatDoc) : List ChatDoc :=
  if relevantDocs.any (docMatchesId id) then relevantDocs
  else
    let allDocsSearch := similaritySearch rank id 100
    let elevatorMatchedDocs := allDocsSearch.filter (docMatchesId id)
    if elevatorMatchedDocs.isEmpty then
      altTermLoop rank id relevantDocs (altSearchTerms id)
    else elevatorMatchedDocs ++ relevantDocs.take 3

/-- The chat route's retrieval: budget selection, primary similarity
search, the filename escalation and the elevator-ID escalation, producing
the final `relevantDocs` list. -/
def selectRelevantDocs (rank : String → List ChatDoc) (query : String)
    (flags : QueryFlags) : List ChatDoc :=
  let eid? := flags.elevatorIdMatch <|> flags.numericIdMatch
  let searchLimit :=
    if flags.isOverviewQuery then 12 else if eid?.isSome then 8 else 3
  let relevantDocs := similaritySearch rank query searchLimit
  let relevantDocs :=
    match flags.fileNameMatch, flags.isOverviewQuery with
    | some term, false => fileNameEscalation rank query term relevantDocs
    | _, _ => relevantDocs
  match eid?, flags.isOverviewQuery with
  | some id, false => elevatorEscalation rank id relevantDocs
  | _, _ => relevantDocs

/-- The overview deduplication: one representative chunk per file name
(the longest, replaced in insertion position as `Map.set` does). -/
def upsertLongest (m : List ChatDoc) (d : ChatDoc) : List ChatDoc :=
  if m.any (fun e => e.fileName = d.fileName) then
    m.map fun e =>
      if e.fileName = d.fileName && d.pageContent.length > e.pageContent.length
      then d else e
  else m ++ [d]

/-- The `processedDocs` list for overview queries: fold the docs through the file
map and keep the first 10 values. -/
def overviewDedup (docs : List ChatDoc) : List ChatDoc :=
  (docs.foldl upsertLongest []).take 10

/-! ### Provider fallback executor (`LLMProviderFactory` + chat route) -/

/-- A configured LLM provider.  The source keeps a mutable boolean
`isAvailable` that `markProviderUnavailable` sets to `false` and a
`setTimeout` flips back after the cooldown; with explicit time this is
the single field `unavailableUntil`: the provider is available at time
`t` iff `unavailableUntil ≤ t` (initially `0`). -/
structure Provider where
  name : String
  unavailableUntil : Nat
  deriving Repr, DecidableEq

/-- The `provider.isAvailable` flag read at time `now`. -/
def providerAvailable (p : Provider) (now : Nat) : Bool :=
  p.unavailableUntil ≤ now

/-- Model of `LLMProviderFactory.getProvider(name)` over the factory's provider
map (a list of the configured providers). -/
def getProvider (provs : List Provider) (name : String) : Option Provider :=
  provs.find? fun p => p.name = name

/-- Model of `LLMProviderFactory.markProviderUnavailable(name, durationMs)` called
at time `now`: the provider becomes unavailable until `now + durationMs`. -/
def markProviderUnavailable (provs : List Provider) (name : String)
    (now durationMs : Nat) : List Provider :=
  provs.map fun p =>
    if p.name = name then { p with unavailableUntil := now + durationMs } else p

/-- The error classification applied before marking a provider
unavailable: the lower-cased message contains `503`, `quota` or
`overloaded`. -/
def overloadSignature (msg : String) : Bool :=
  let m := strToLower msg
  strIncludes m "503" || strIncludes m "quota" || strIncludes m "overloaded"

/-- The provider execution order of the chat route:
Gemini (primary) → OpenAI (fallback). -/
def providerOrder : List String := ["gemini", "openai"]

/-- The chat route's provider loop at time `now`.  `invoke p` is the
external outcome of `chain.invoke` for provider `p` (a timeout is an
`.error` whose message says so).  Skips unconfigured or unavailable
providers; on success stops with the response; on failure records the
error, marks the provider unavailable for 60 000 ms when the message has
an overload signature, and continues.  Returns the updated provider
list, the successful response (if any), the last error (if any) and the
names attempted, in order. -/
def runProviders (invoke : String → Except String String) (now : Nat)
    (provs : List Provider) : List String →
    Option String → List String →
    List Provider × Option String × Option String × List String
  | [], lastErr, attempted => (provs, none, lastErr, attempted)
  | nm :: rest, lastErr, attempted =>
    match getProvider provs nm with
    | none => runProviders invoke now provs rest lastErr attempted
    | some p =>
      if providerAvailable p now then
        match invoke nm with
        | .ok resp => (provs, some resp, lastErr, attempted ++ [nm])
        | .error msg =>
          let provs' :=
            if overloadSignature msg then
              markProviderUnavailable provs nm now 60000
            else provs
          runProviders invoke now provs' rest (some msg) (attempted ++ [nm])
      else runProviders invoke now provs rest lastErr attempted

/-! ### Fallback synthesis and the chat response (chat route `POST`) -/

/-- Model of `files.map(f => "• " + f).join("\n")`. -/
def bulletLines : List String → String
  | [] => ""
  | [f] => "• " ++ f
  | f :: rest => "• " ++ f ++ "\n" ++ bulletLines rest

/-- The intelligent fallback synthesized when every attempted provider
failed: for elevator-ID queries it lists the names of the processed
documents matching the identifier; otherwise a service notice with the
document count; both in German or English according to the query's
language test. -/
def fallbackResponse (isGerman : Bool) (eid? : Option String)
    (processedDocs : List ChatDoc) : String :=
  match eid? with
  | some id =>
    let relevantFiles := (processedDocs.filter (docMatchesId id)).map (·.fileName)
    if isGerman then
      "🔧 **Aufzug " ++ id ++ " - Dokumentenanalyse**\n\n**Gefundene Dokumente:**\n"
        ++ bulletLines relevantFiles
        ++ "\n\n**Hinweis:** AI-Services momentan nicht verfügbar. Bitte versuchen Sie es in wenigen Minuten erneut."
    else
      "🔧 **Elevator " ++ id ++ " - Document Analysis**\n\n**Found Documents:**\n"
        ++ bulletLines relevantFiles
        ++ "\n\n**Note:** AI services currently unavailable. Please try again in a few minutes."
  | none =>
    if isGerman then
      "⚠️ **Service-Hinweis**\n\nAI-Services sind momentan nicht verfügbar.\n\n**Verfügbare Dokumente:** "
        ++ toString processedDocs.length
        ++ " gefunden\n\nBitte versuchen Sie Ihre Frage in 2-3 Minuten erneut."
    else
      "⚠️ **Service Notice**\n\nAI services are currently unavailable.\n\n**Available Documents:** "
        ++ toString processedDocs.length
        ++ " found\n\nPlease try your question again in 2-3 minutes."

/-- A source citation in the chat response
(`{fileName, fileId, pageNumber}` with `pageNumber = chunkIndex + 1`). -/
structure SourceRef where
  fileName : String
  fileId : String
  pageNumber : Nat
  deriving Repr, DecidableEq

/-- The chat response body relevant to the claims: the `content` string,
the `sources` array and the `providersAttempted` metadata. -/
structure ChatResponse where
  content : String
  sources : List SourceRef
  providersAttempted : List String
  deriving Repr, DecidableEq

/-- One chat request: the last user message (`query`), its regex
classification, and the outcome of the German-language keyword test
applied to it. -/
structure ChatRequest where
  query : String
  flags : QueryFlags
  isGerman : Bool

/-- The chat `POST` handler after the session's vector store was found:
retrieval with escalation, the no-documents reply (`noDocsMsg` is the
YAML-configured `no_documents` error message), overview deduplication,
the provider loop, the fallback synthesis guarded by
`if (!response && lastError)`, and citation assembly.  Returns the
updated provider list and the response. -/
def chatPOST (rank : String → List ChatDoc)
    (invoke : String → Except String String) (now : Nat)
    (provs : List Provider) (req : ChatRequest) (noDocsMsg : String) :
    List Provider × ChatResponse :=
  let relevantDocs := selectRelevantDocs rank req.query req.flags
  if relevantDocs.isEmpty then
    (provs, { content := noDocsMsg, sources := [], providersAttempted := [] })
  else
    let processedDocs :=
      if req.flags.isOverviewQuery then overviewDedup relevantDocs
      else relevantDocs
    let runRes := runProviders invoke now provs providerOrder none []
    let provs' := runRes.1
    let resp? := runRes.2.1
    let lastErr? := runRes.2.2.1
    let attempted := runRes.2.2.2
    let eid? := req.flags.elevatorIdMatch <|> req.flags.numericIdMatch
    let response :=
      if (resp?.getD "") = "" && lastErr?.isSome then
        fallbackResponse req.isGerman eid? processedDocs
      else resp?.getD ""
    let sources := relevantDocs.map fun d =>
      { fileName := d.fileName, fileId := d.fileId,
        pageNumber := d.chunkIndex + 1 : SourceRef }
    (provs', { content := response, sources := sources,
               providersAttempted := attempted })

/-- The progress map after the four pre-listing updates of `ingestGET`
(steps 0–3), as handed to `ingestListed`. -/
def preListedMap (st : IngestState) (sid : String) : ProgressMap :=
  (updateProgress (updateProgress (updateProgress (updateProgress
    st.progress sid 0 10 "Initializing connection to Google Drive..." "" 0 0).1
    sid 1 10 "Creating Google Drive authentication..." "" 0 0).1
    sid 2 10 "Connecting to Google Drive API..." "" 0 0).1
    sid 3 10 "Scanning documents in folder..." "" 0 0).1

/-- The trace of the four pre-listing updates of `ingestGET`. -/
def preListedTrace (st : IngestState) (sid : String) : List ProgressData :=
  [(updateProgress st.progress sid 0 10
      "Initializing connection to Google Drive..." "" 0 0).2,
    (updateProgress (updateProgress st.progress sid 0 10
      "Initializing connection to Google Drive..." "" 0 0).1
      sid 1 10 "Creating Google Drive authentication..." "" 0 0).2,
    (updateProgress (updateProgress (updateProgress st.progress sid 0 10
      "Initializing connection to Google Drive..." "" 0 0).1
      sid 1 10 "Creating Google Drive authentication..." "" 0 0).1
      sid 2 10 "Connecting to Google Drive API..." "" 0 0).2,
    (updateProgress (updateProgress (updateProgress (updateProgress
      st.progress sid 0 10 "Initializing connection to Google Drive..." "" 0 0).1
      sid 1 10 "Creating Google Drive authentication..." "" 0 0).1
      sid 2 10 "Connecting to Google Drive API..." "" 0 0).1
      sid 3 10 "Scanning documents in folder..." "" 0 0).2]

/-- The `processedDocs` list computed by the chat route (overview
deduplication applied only to overview queries). -/
def chatProcessedDocs (rank : String → List ChatDoc) (req : ChatRequest) :
    List ChatDoc :=
  let relevantDocs := selectRelevantDocs rank req.query req.flags
  if req.flags.isOverviewQuery then overviewDedup relevantDocs
  else relevantDocs

/-! ### Concrete fixtures used to instantiate the theorems -/

/-- A plain-text file fixture. -/
def fileA : DriveFile := ⟨"id1", "a.txt", "text/plain", none⟩

/-- A second plain-text file fixture. -/
def fileB : DriveFile := ⟨"id2", "b.txt", "text/plain", none⟩

/-- A PDF file fixture. -/
def filePdf : DriveFile := ⟨"id3", "c.pdf", "application/pdf", none⟩

/-- A one-chunk splitter outcome (never throws). -/
def splitOne : String → Except String (List String) := fun s => .ok [s]

/-- An environment where everything succeeds: two text files, both
fetched and decoded, split into one chunk each, embedding succeeds. -/
def envOk : IngestEnv :=
  ⟨true, true, true, true, .ok [fileA, fileB],
    fun _ => .ok (.ok "hello world"), splitOne, fun _ => .ok ()⟩

/-- Like `envOk` but fetching the first file throws. -/
def envFetchFail0 : IngestEnv :=
  { envOk with
    fetchDecode := fun i =>
      if i = 0 then .error "network error" else .ok (.ok "hello world") }

/-- A PDF file plus a text file; the PDF's decoder throws (the throw is
caught inside `parseFileContent`), everything else succeeds. -/
def envDecodeFail0 : IngestEnv :=
  ⟨true, true, true, true, .ok [filePdf, fileB],
    fun i => if i = 0 then .ok (.error "bad xref") else .ok (.ok "hello world"),
    splitOne, fun _ => .ok ()⟩

/-- A chat-corpus chunk that does not mention the identifier `123456`. -/
def fillerDoc : ChatDoc := ⟨"d", "f", "fid", 0, []⟩

/-- A chat-corpus chunk containing the identifier `123456`. -/
def targetDoc : ChatDoc := ⟨"x123456x", "t.pdf", "tid", 3, []⟩

/-- A 101-chunk corpus whose only identifier-bearing chunk is last. -/
def corpus101 : List ChatDoc := List.replicate 100 fillerDoc ++ [targetDoc]

/-- An adversarial (but contract-conforming) ranking that always puts the
identifier-bearing chunk last. -/
def advRank : String → List ChatDoc := fun _ => corpus101

/-- A 51-chunk corpus whose identifier-bearing chunk is last. -/
def corpus51 : List ChatDoc := List.replicate 50 fillerDoc ++ [targetDoc]

/-- The ranking over the small corpus. -/
def smallRank : String → List ChatDoc := fun _ => corpus51

/-! ### Derived characterizations of the per-file loop -/

/-- Whether the per-file `catch` fires for file `i`: its fetch throws,
or the splitter throws on its (non-blank) extracted content.  A decoder
throw inside `parseFileContent` does *not* fire the `catch`. -/
def fileFails (env : IngestEnv) (i : Nat) (f : DriveFile) : Bool :=
  match env.fetchDecode i with
  | .error _ => true
  | .ok decode =>
    let content := parseFileContent decode f.mimeType f.name
    if isBlank content then false
    else
      match env.split content with
      | .error _ => true
      | .ok _ => false

/-- The two progress records emitted for file `i`. -/
def fileTraceSpec (env : IngestEnv) (tf i : Nat) (f : DriveFile) :
    List ProgressData :=
  let cf := if f.name = "" then "file-" ++ toString (i + 1) else f.name
  [⟨5, 10, cf, "Processing: " ++ cf, i, tf, 50⟩,
    if fileFails env i f then
      ⟨5, 10, f.name,
        "Error processing: " ++ (if f.name = "" then "unknown file" else f.name),
        i + 1, tf, 50⟩
    else ⟨5, 10, cf, "Processed: " ++ cf, i + 1, tf, 50⟩]

/-- The chunks accumulated by the loop over `files` starting at index `i`. -/
def loopDocs (env : IngestEnv) : List DriveFile → Nat → List Chunk
  | [], _ => []
  | f :: rest, i => fileDocs env i f ++ loopDocs env rest (i + 1)

/-- The progress records emitted by the loop over `files` starting at `i`. -/
def loopTraceSpec (env : IngestEnv) (tf : Nat) :
    List DriveFile → Nat → List ProgressData
  | [], _ => []
  | f :: rest, i => fileTraceSpec env tf i f ++ loopTraceSpec env tf rest (i + 1)

theorem processFile_snd (env : IngestEnv) (sid : String) (tf i : Nat)
    (f : DriveFile) (prog : ProgressMap) (acc : List Chunk) :
    (processFile env sid tf i f prog acc).2 =
      (acc ++ fileDocs env i f, fileTraceSpec env tf i f) := by
  unfold processFile fileDocs fileTraceSpec fileFails updateProgress
  cases hf : env.fetchDecode i with
  | error e => simp
  | ok d =>
    by_cases hb : isBlank (parseFileContent d f.mimeType f.name)
    · simp [hb]
    · cases hs : env.split (parseFileContent d f.mimeType f.name) with
      | error e => simp [hb, hs]
      | ok chunks => simp [hb, hs]

theorem processLoop_snd (env : IngestEnv) (sid : String) (tf : Nat)
    (files : List DriveFile) :
    ∀ (i : Nat) (prog : ProgressMap) (acc : List Chunk),
      (processLoop env sid tf files i prog acc).2 =
        (acc ++ loopDocs env files i, loopTraceSpec env tf files i) := by
  induction files with
  | nil => intro i prog acc; simp [processLoop, loopDocs, loopTraceSpec]
  | cons f rest ih =>
    intro i prog acc
    simp only [processLoop, loopDocs, loopTraceSpec]
    have hstep := processFile_snd env sid tf i f prog acc
    have hacc : (processFile env sid tf i f prog acc).2.1 =
        acc ++ fileDocs env i f := by rw [hstep]
    have htr : (processFile env sid tf i f prog acc).2.2 =
        fileTraceSpec env tf i f := by rw [hstep]
    have hrest := ih (i + 1) (processFile env sid tf i f prog acc).1
      (processFile env sid tf i f prog acc).2.1
    have h1 : (processLoop env sid tf rest (i + 1)
        (processFile env sid tf i f prog acc).1
        (processFile env sid tf i f prog acc).2.1).2.1 =
        (acc ++ fileDocs env i f) ++ loopDocs env rest (i + 1) := by
      rw [congrArg Prod.fst hrest, hacc]
    have h2 : (processLoop env sid tf rest (i + 1)
        (processFile env sid tf i f prog acc).1
        (processFile env sid tf i f prog acc).2.1).2.2 =
        loopTraceSpec env tf rest (i + 1) := by
      rw [congrArg Prod.snd hrest]
    refine Prod.ext ?_ ?_
    · simpa [List.append_assoc] using h1
    · simp [htr, h2]

theorem loopTraceSpec_mem (env : IngestEnv) (tf : Nat)
    (files : List DriveFile) :
    ∀ (i : Nat), ∀ pd ∈ loopTraceSpec env tf files i,
      pd.currentStep = 5 ∧ pd.totalSteps = 10 ∧ pd.percentage = 50 := by
  induction files with
  | nil => intro i pd hpd; simp [loopTraceSpec] at hpd
  | cons f rest ih =>
    intro i pd hpd
    rw [loopTraceSpec, List.mem_append] at hpd
    rcases hpd with h | h
    · rw [fileTraceSpec] at h
      simp only [List.mem_cons, List.mem_singleton] at h
      rcases h with h | h | h
      · subst h; exact ⟨rfl, rfl, rfl⟩
      · subst h
        by_cases hff : fileFails env i f = true
        · simp [hff]
        · simp [hff]
      · simp at h
    · exact ih (i + 1) pd h

theorem loopTraceSpec_length (env : IngestEnv) (tf : Nat)
    (files : List DriveFile) :
    ∀ (i : Nat), (loopTraceSpec env tf files i).length = 2 * files.length := by
  induction files with
  | nil => intro i; simp [loopTraceSpec]
  | cons f rest ih =>
    intro i
    rw [loopTraceSpec, List.length_append, fileTraceSpec]
    rw [ih (i + 1)]
    simp [List.length_cons]
    ring

theorem fileDocs_eq_nil_of_fails (env : IngestEnv) (i : Nat) (f : DriveFile)
    (h : fileFails env i f = true) : fileDocs env i f = [] := by
  unfold fileFails at h
  unfold fileDocs
  cases hf : env.fetchDecode i with
  | error e => rfl
  | ok d =>
    rw [hf] at h
    by_cases hb : isBlank (parseFileContent d f.mimeType f.name)
    · simp [hb] at h
    · simp only [hb] at h ⊢
      cases hs : env.split (parseFileContent d f.mimeType f.name) with
      | error e => simp [hs]
      | ok chunks => rw [hs] at h; simp at h

theorem loopTraceSpec_error_mem (env : IngestEnv) (tf : Nat) :
    ∀ (files : List DriveFile) (i j : Nat) (hj : j < files.length),
      fileFails env (i + j) (files.get ⟨j, hj⟩) = true →
      (files.get ⟨j, hj⟩).name ≠ "" →
      ∃ pd ∈ loopTraceSpec env tf files i,
        pd.status = "Error processing: " ++ (files.get ⟨j, hj⟩).name ∧
        pd.filesProcessed = i + j + 1 := by
  intro files
  induction files with
  | nil => intro i j hj; simp at hj
  | cons f rest ih =>
    intro i j hj hfail hname
    cases j with
    | zero =>
      have hget : (f :: rest).get ⟨0, hj⟩ = f := rfl
      rw [hget] at hfail hname ⊢
      rw [Nat.add_zero] at hfail
      refine ⟨⟨5, 10, f.name, "Error processing: " ++ f.name, i + 1, tf, 50⟩,
        ?_, rfl, by simp⟩
      rw [loopTraceSpec, List.mem_append]
      left
      simp [fileTraceSpec, hfail, hname]
    | succ j' =>
      have hj' : j' < rest.length := by simpa using hj
      have hfail' : fileFails env ((i + 1) + j') (rest.get ⟨j', hj'⟩) = true := by
        have : (i + 1) + j' = i + (j' + 1) := by omega
        rw [this]
        simpa using hfail
      have hname' : (rest.get ⟨j', hj'⟩).name ≠ "" := by simpa using hname
      obtain ⟨pd, hpd, hst, hfp⟩ := ih (i + 1) j' hj' hfail' hname'
      refine ⟨pd, ?_, by simpa using hst, by omega⟩
      rw [loopTraceSpec, List.mem_append]
      exact Or.inr hpd

theorem loopTraceSpec_ne_nil (env : IngestEnv) (tf : Nat)
    (f : DriveFile) (rest : List DriveFile) (i : Nat) :
    loopTraceSpec env tf (f :: rest) i ≠ [] := by
  rw [loopTraceSpec, fileTraceSpec]
  simp

theorem loopTraceSpec_getLast (env : IngestEnv) (tf : Nat) :
    ∀ (files : List DriveFile) (i : Nat), files ≠ [] →
      ∃ pd, (loopTraceSpec env tf files i).getLast? = some pd ∧
        pd.filesProcessed = i + files.length := by
  intro files
  induction files with
  | nil => intro i h; exact absurd rfl h
  | cons f rest ih =>
    intro i _
    by_cases hr : rest = []
    · subst hr
      refine ⟨if fileFails env i f then
          ⟨5, 10, f.name, "Error processing: " ++
            (if f.name = "" then "unknown file" else f.name), i + 1, tf, 50⟩
        else
          ⟨5, 10, if f.name = "" then "file-" ++ toString (i + 1) else f.name,
            "Processed: " ++
              (if f.name = "" then "file-" ++ toString (i + 1) else f.name),
            i + 1, tf, 50⟩, ?_, ?_⟩
      · by_cases hff : fileFails env i f = true <;>
          simp [loopTraceSpec, fileTraceSpec, hff, List.getLast?]
      · by_cases hff : fileFails env i f = true <;> simp [hff]
    · have hne : loopTraceSpec env tf rest (i + 1) ≠ [] := by
        cases rest with
        | nil => exact absurd rfl hr
        | cons g r' => exact loopTraceSpec_ne_nil env tf g r' (i + 1)
      obtain ⟨pd, hlast, hfp⟩ := ih (i + 1) hr
      refine ⟨pd, ?_, ?_⟩
      · rw [loopTraceSpec, List.getLast?_append_of_ne_nil _ hne]
        exact hlast
      · rw [hfp]
        simp [List.length_cons]
        omega

theorem fileDocs_subset_loopDocs (env : IngestEnv) :
    ∀ (files : List DriveFile) (i j : Nat) (hj : j < files.length),
      ∀ c ∈ fileDocs env (i + j) (files.get ⟨j, hj⟩),
        c ∈ loopDocs env files i := by
  intro files
  induction files with
  | nil => intro i j hj; simp at hj
  | cons f rest ih =>
    intro i j hj c hc
    rw [loopDocs, List.mem_append]
    cases j with
    | zero => exact Or.inl (by simpa using hc)
    | succ j' =>
      have hj' : j' < rest.length := by simpa using hj
      refine Or.inr (ih (i + 1) j' hj' c ?_)
      have : (i + 1) + j' = i + (j' + 1) := by omega
      rw [this]
      simpa using hc

theorem alGet_alSet_self {α : Type} (m : List (String × α)) (k : String)
    (v : α) : alGet (alSet m k v) k = some v := by
  induction m with
  | nil => simp [alSet, alGet]
  | cons h t ih =>
    obtain ⟨k', v'⟩ := h
    by_cases hk : k' = k
    · simp [alSet, alGet, hk]
    · simp [alSet, alGet, hk, ih]

/-! ### Substring and string-building lemmas -/

theorem chPrefixOf_refl : ∀ p : List Char, chPrefixOf p p = true := by
  intro p
  induction p with
  | nil => rfl
  | cons a t ih => simp [chPrefixOf, ih]

theorem chPrefixOf_extend : ∀ (p s t : List Char),
    chPrefixOf p s = true → chPrefixOf p (s ++ t) = true := by
  intro p
  induction p with
  | nil => intro s t _; rfl
  | cons a p' ih =>
    intro s t h
    cases s with
    | nil => simp [chPrefixOf] at h
    | cons b s' =>
      rw [chPrefixOf, Bool.and_eq_true] at h
      show chPrefixOf (a :: p') (b :: (s' ++ t)) = true
      rw [chPrefixOf, Bool.and_eq_true]
      exact ⟨h.1, ih s' t h.2⟩

theorem chSubOf_of_pre (p s : List Char) (h : chPrefixOf p s = true) :
    chSubOf p s = true := by
  cases s with
  | nil => rw [chSubOf]; exact h
  | cons c t => rw [chSubOf, h]; rfl

theorem chSubOf_append_left : ∀ (s : List Char) (p t : List Char),
    chSubOf p s = true → chSubOf p (s ++ t) = true := by
  intro s
  induction s with
  | nil =>
    intro p t h
    rw [chSubOf] at h
    cases p with
    | nil => exact chSubOf_of_pre _ _ rfl
    | cons a p' => simp [chPrefixOf] at h
  | cons c s' ih =>
    intro p t h
    rw [chSubOf, Bool.or_eq_true] at h
    rw [List.cons_append, chSubOf, Bool.or_eq_true]
    rcases h with h | h
    · exact Or.inl (by rw [← List.cons_append]; exact chPrefixOf_extend _ _ _ h)
    · exact Or.inr (ih p t h)

theorem chSubOf_append_right : ∀ (s : List Char) (p t : List Char),
    chSubOf p t = true → chSubOf p (s ++ t) = true := by
  intro s
  induction s with
  | nil => intro p t h; exact h
  | cons c s' ih =>
    intro p t h
    rw [List.cons_append, chSubOf, Bool.or_eq_true]
    exact Or.inr (ih p t h)

theorem strIncludes_refl (s : String) : strIncludes s s = true :=
  chSubOf_of_pre _ _ (chPrefixOf_refl s.data)

theorem strIncludes_append_left (a b pat : String)
    (h : strIncludes a pat = true) : strIncludes (a ++ b) pat = true := by
  unfold strIncludes at h ⊢
  rw [String.data_append]
  exact chSubOf_append_left _ _ _ h

theorem strIncludes_append_right (a b pat : String)
    (h : strIncludes b pat = true) : strIncludes (a ++ b) pat = true := by
  unfold strIncludes at h ⊢
  rw [String.data_append]
  exact chSubOf_append_right _ _ _ h

theorem string_length_pos_ne_empty (s : String) (h : 0 < s.length) :
    s ≠ "" := by
  intro hc
  rw [hc] at h
  simp at h

theorem append_ne_empty_left (a b : String) (h : a ≠ "") : a ++ b ≠ "" := by
  intro hc
  apply h
  apply String.ext
  have hd := congrArg String.data hc
  rw [String.data_append, show ("" : String).data = [] from rfl] at hd
  rw [(List.append_eq_nil.mp hd).1]

theorem bulletLines_mem (fn : String) : ∀ l : List String, fn ∈ l →
    strIncludes (bulletLines l) ("• " ++ fn) = true := by
  intro l
  induction l with
  | nil => intro h; simp at h
  | cons f rest ih =>
    intro hmem
    rcases List.mem_cons.mp hmem with rfl | hmem
    · cases rest with
      | nil => exact strIncludes_refl _
      | cons g rest' =>
        show strIncludes ("• " ++ fn ++ "\n" ++ bulletLines (g :: rest')) _ = true
        apply strIncludes_append_left
        apply strIncludes_append_left
        exact strIncludes_refl _
    · cases rest with
      | nil => simp at hmem
      | cons g rest' =>
        show strIncludes ("• " ++ f ++ "\n" ++ bulletLines (g :: rest')) _ = true
        apply strIncludes_append_right
        exact ih hmem

theorem fallbackResponse_ne_empty (g : Bool) (eid? : Option String)
    (docs : List ChatDoc) : fallbackResponse g eid? docs ≠ "" := by
  rw [fallbackResponse.eq_def]
  cases eid? with
  | some id =>
    cases g <;>
      exact append_ne_empty_left _ _ (append_ne_empty_left _ _
        (append_ne_empty_left _ _ (append_ne_empty_left _ _ (by decide))))
  | none =>
    cases g <;>
      exact append_ne_empty_left _ _ (append_ne_empty_left _ _ (by decide))

theorem fallbackResponse_mentions_files (g : Bool) (id : String)
    (docs : List ChatDoc) :
    ∀ fn ∈ (docs.filter (docMatchesId id)).map ChatDoc.fileName,
      strIncludes (fallbackResponse g (some id) docs) ("• " ++ fn) = true := by
  intro fn hfn
  rw [fallbackResponse.eq_def]
  cases g <;>
    · apply strIncludes_append_left
      apply strIncludes_append_right
      exact bulletLines_mem fn _ hfn

theorem isBlank_append (a b : String) :
    isBlank (a ++ b) = (isBlank a && isBlank b) := by
  simp [isBlank, String.data_append, List.all_append]

/-! ### Monotone-chain helpers -/

theorem chain_le_of_const50 {l : List Nat} (h : ∀ x ∈ l, x = 50) :
    List.Chain' (· ≤ ·) l := by
  induction l with
  | nil => simp
  | cons a t ih =>
    rw [List.chain'_cons']
    refine ⟨?_, ih fun x hx => h x (List.mem_cons_of_mem a hx)⟩
    intro y hy
    rw [h a (List.mem_cons_self a t),
      h y (List.mem_cons_of_mem a (List.mem_of_mem_head? hy))]

theorem chain_pre_mid_post (a m c : List Nat)
    (ha : List.Chain' (· ≤ ·) a) (hb : ∀ x ∈ a, x ≤ 50)
    (hm : ∀ x ∈ m, x = 50)
    (hc : List.Chain' (· ≤ ·) c) (hc50 : ∀ x ∈ c, 50 ≤ x) :
    List.Chain' (· ≤ ·) (a ++ (m ++ c)) := by
  rw [List.chain'_append]
  refine ⟨ha, ?_, ?_⟩
  · rw [List.chain'_append]
    refine ⟨chain_le_of_const50 hm, hc, ?_⟩
    intro x hx y hy
    rw [hm x (List.mem_of_mem_getLast? hx)]
    exact hc50 y (List.mem_of_mem_head? hy)
  · intro x hx y hy
    have hx' : x ≤ 50 := hb x (List.mem_of_mem_getLast? hx)
    rcases List.mem_append.mp (List.mem_of_mem_head? hy) with h | h
    · rw [hm y h]; exact hx'
    · exact le_trans hx' (hc50 y h)

theorem processLoop_acc_nil (env : IngestEnv) (sid : String) (tf : Nat)
    (files : List DriveFile) (i : Nat) (prog : ProgressMap) :
    (processLoop env sid tf files i prog []).2.1 = loopDocs env files i := by
  have := congrArg Prod.fst (processLoop_snd env sid tf files i prog [])
  simpa using this

theorem processLoop_trace_eq (env : IngestEnv) (sid : String) (tf : Nat)
    (files : List DriveFile) (i : Nat) (prog : ProgressMap)
    (acc : List Chunk) :
    (processLoop env sid tf files i prog acc).2.2 =
      loopTraceSpec env tf files i :=
  congrArg Prod.snd (processLoop_snd env sid tf files i prog acc)

/-- The percentage sequence of the loop trace is a block of 50s. -/
theorem loopTraceSpec_map_pct (env : IngestEnv) (tf : Nat)
    (files : List DriveFile) (i : Nat) :
    (loopTraceSpec env tf files i).map ProgressData.percentage =
      List.replicate (2 * files.length) 50 := by
  rw [List.eq_replicate_iff]
  constructor
  · rw [List.length_map, loopTraceSpec_length]
  · intro b hb
    rcases List.mem_map.mp hb with ⟨pd, hpd, rfl⟩
    exact (loopTraceSpec_mem env tf files i pd hpd).2.2

/-- Stage lemma: `ingestProcess` preserves progress-trace monotonicity
(up to the terminal update) and the percentage formula. -/
theorem ingestProcess_spec (env : IngestEnv) (st : IngestState)
    (sid : String) (files : List DriveFile) (p6 : ProgressMap)
    (pre : List ProgressData)
    (hpre1 : List.Chain' (· ≤ ·) (pre.map ProgressData.percentage))
    (hpre2 : ∀ pd ∈ pre, pd.percentage ≤ 50)
    (hpre3 : ∀ pd ∈ pre,
      pd.percentage = pd.currentStep * 100 / pd.totalSteps) :
    List.Chain' (· ≤ ·)
      (((ingestProcess env st sid files p6 pre).2.2).dropLast.map
        ProgressData.percentage) ∧
    ∀ pd ∈ (ingestProcess env st sid files p6 pre).2.2,
      pd.percentage = pd.currentStep * 100 / pd.totalSteps := by
  have hmid : ∀ pd ∈ loopTraceSpec env files.length files 0,
      pd.percentage = 50 := fun pd hpd =>
    (loopTraceSpec_mem env files.length files 0 pd hpd).2.2
  have hmid50 : ∀ x ∈ (loopTraceSpec env files.length files 0).map
      ProgressData.percentage, x = 50 := by
    intro x hx
    rcases List.mem_map.mp hx with ⟨pd, hpd, rfl⟩
    exact hmid pd hpd
  have hmidf : ∀ pd ∈ loopTraceSpec env files.length files 0,
      pd.percentage = pd.currentStep * 100 / pd.totalSteps := by
    intro pd hpd
    obtain ⟨h5, h10, h50⟩ := loopTraceSpec_mem env files.length files 0 pd hpd
    rw [h5, h10, h50]
  have hpre2m : ∀ x ∈ pre.map ProgressData.percentage, x ≤ 50 := by
    intro x hx
    rcases List.mem_map.mp hx with ⟨pd, hpd, rfl⟩
    exact hpre2 pd hpd
  by_cases hde : (processLoop env sid files.length files 0 p6 []).2.1.isEmpty = true
  · constructor
    · simp only [ingestProcess, hde, if_true, processLoop_trace_eq]
      have heq : pre ++ (loopTraceSpec env files.length files 0 ++
          [(updateProgress (processLoop env sid files.length files 0 p6 []).1
            sid 10 10 "No processable content found" "" 0 0).2]) =
          (pre ++ loopTraceSpec env files.length files 0) ++
          [(updateProgress (processLoop env sid files.length files 0 p6 []).1
            sid 10 10 "No processable content found" "" 0 0).2] := by
        simp
      rw [heq, List.dropLast_concat, List.map_append]
      have := chain_pre_mid_post _ _ [] hpre1 hpre2m hmid50 (by simp) (by simp)
      simpa using this
    · simp only [ingestProcess, hde, if_true, processLoop_trace_eq]
      intro pd hpd
      rcases List.mem_append.mp hpd with h | h
      · exact hpre3 pd h
      · rcases List.mem_append.mp h with h | h
        · exact hmidf pd h
        · rcases List.mem_singleton.mp h with rfl
          rfl
  · cases he : env.embed (processLoop env sid files.length files 0 p6 []).2.1 with
    | error msg =>
      constructor
      · simp only [ingestProcess, hde, if_false, Bool.false_eq_true, he,
          processLoop_trace_eq]
        have heq : ∀ (x y : ProgressData),
            pre ++ (loopTraceSpec env files.length files 0 ++ [x, y]) =
            (pre ++ (loopTraceSpec env files.length files 0 ++ [x])) ++ [y] := by
          intro x y
          simp
        rw [heq, List.dropLast_concat, List.map_append, List.map_append]
        refine chain_pre_mid_post _ _ _ hpre1 hpre2m hmid50 ?_ ?_ <;>
          simp [updateProgress]
      · simp only [ingestProcess, hde, if_false, Bool.false_eq_true, he,
          processLoop_trace_eq]
        intro pd hpd
        rcases List.mem_append.mp hpd with h | h
        · exact hpre3 pd h
        · rcases List.mem_append.mp h with h | h
          · exact hmidf pd h
          · rcases List.mem_cons.mp h with rfl | h
            · rfl
            · rcases List.mem_singleton.mp h with rfl
              rfl
    | ok u =>
      constructor
      · simp only [ingestProcess, hde, if_false, Bool.false_eq_true, he,
          processLoop_trace_eq]
        have heq : ∀ (x y z : ProgressData),
            pre ++ (loopTraceSpec env files.length files 0 ++ [x, y, z]) =
            (pre ++ (loopTraceSpec env files.length files 0 ++ [x, y])) ++ [z] := by
          intro x y z
          simp
        rw [heq, List.dropLast_concat, List.map_append, List.map_append]
        refine chain_pre_mid_post _ _ _ hpre1 hpre2m hmid50 ?_ ?_ <;>
          simp [updateProgress, List.chain'_cons]
      · simp only [ingestProcess, hde, if_false, Bool.false_eq_true, he,
          processLoop_trace_eq]
        intro pd hpd
        rcases List.mem_append.mp hpd with h | h
        · exact hpre3 pd h
        · rcases List.mem_append.mp h with h | h
          · exact hmidf pd h
          · rcases List.mem_cons.mp h with rfl | h
            · rfl
            · rcases List.mem_cons.mp h with rfl | h
              · rfl
              · rcases List.mem_singleton.mp h with rfl
                rfl

/-- Stage lemma: `ingestListed` preserves progress-trace monotonicity
and the percentage formula. -/
theorem ingestListed_spec (env : IngestEnv) (st : IngestState)
    (sid : String) (p4 : ProgressMap) (pre : List ProgressData)
    (hpre1 : List.Chain' (· ≤ ·) (pre.map ProgressData.percentage))
    (hpre2 : ∀ pd ∈ pre, pd.percentage ≤ 30)
    (hpre3 : ∀ pd ∈ pre,
      pd.percentage = pd.currentStep * 100 / pd.totalSteps) :
    List.Chain' (· ≤ ·)
      (((ingestListed env st sid p4 pre).2.2).dropLast.map
        ProgressData.percentage) ∧
    ∀ pd ∈ (ingestListed env st sid p4 pre).2.2,
      pd.percentage = pd.currentStep * 100 / pd.totalSteps := by
  cases hl : env.listing with
  | error msg =>
    constructor
    · simp only [ingestListed, hl, List.dropLast_concat]
      exact hpre1
    · simp only [ingestListed, hl]
      intro pd hpd
      rcases List.mem_append.mp hpd with h | h
      · exact hpre3 pd h
      · rcases List.mem_singleton.mp h with rfl
        rfl
  | ok files =>
    by_cases hfe : files.isEmpty = true
    · constructor
      · simp only [ingestListed, hl, hfe, if_true, List.dropLast_concat]
        exact hpre1
      · simp only [ingestListed, hl, hfe, if_true]
        intro pd hpd
        rcases List.mem_append.mp hpd with h | h
        · exact hpre3 pd h
        · rcases List.mem_singleton.mp h with rfl
          rfl
    · simp only [ingestListed, hl, hfe, Bool.false_eq_true, if_false]
      refine ingestProcess_spec env st sid files _ _ ?_ ?_ ?_
      · rw [List.map_append]
        rw [List.chain'_append]
        refine ⟨hpre1, by simp [updateProgress, List.chain'_cons], ?_⟩
        intro x hx y hy
        have hx' : x ≤ 30 := by
          rcases List.mem_map.mp (List.mem_of_mem_getLast? hx) with ⟨pd, hpd, rfl⟩
          exact hpre2 pd hpd
        have hy' : y = 40 := by
          simp [updateProgress] at hy
          omega
        omega
      · intro pd hpd
        rcases List.mem_append.mp hpd with h | h
        · exact le_trans (hpre2 pd h) (by omega)
        · rcases List.mem_cons.mp h with rfl | h
          · simp [updateProgress]
          · rcases List.mem_singleton.mp h with rfl
            simp [updateProgress]
      · intro pd hpd
        rcases List.mem_append.mp hpd with h | h
        · exact hpre3 pd h
        · rcases List.mem_cons.mp h with rfl | h
          · rfl
          · rcases List.mem_singleton.mp h with rfl
            rfl

/-- Off the cache-hit and config-error paths, `ingestGET` is the listing
stage applied after the four pre-listing updates. -/
theorem ingestGET_main (env : IngestEnv) (st : IngestState) (sid : String)
    (hc : ¬ alHas st.vectorStores sid = true)
    (hcfg : (env.hasClientEmail && env.hasPrivateKey && env.hasFolderId &&
      env.hasGeminiKey) = true) :
    ingestGET env st sid =
      ingestListed env st sid (preListedMap st sid) (preListedTrace st sid) := by
  simp [ingestGET, hc, hcfg, preListedMap, preListedTrace]

/-- On the success path, `ingestProcess` returns the listed files and a
trace whose percentages are the prefix, a 50-block, then 70/90/100. -/
theorem ingestProcess_success_map (env : IngestEnv) (st : IngestState)
    (sid : String) (files : List DriveFile) (p6 : ProgressMap)
    (pre : List ProgressData) (st2 : IngestState) (sid2 : String)
    (fs : List DriveFile) (n : Nat) (tr : List ProgressData)
    (h : ingestProcess env st sid files p6 pre =
      (st2, .readySuccess sid2 fs n, tr)) :
    fs = files ∧
    tr.map ProgressData.percentage =
      pre.map ProgressData.percentage ++
        (List.replicate (2 * files.length) 50 ++ [70, 90, 100]) := by
  by_cases hde : (processLoop env sid files.length files 0 p6 []).2.1.isEmpty = true
  · simp [ingestProcess, hde] at h
  · cases he : env.embed (processLoop env sid files.length files 0 p6 []).2.1 with
    | error msg => simp [ingestProcess, hde, he] at h
    | ok u =>
      simp only [ingestProcess, hde, Bool.false_eq_true, if_false, he,
        Prod.mk.injEq, IngestResponse.readySuccess.injEq] at h
      obtain ⟨-, ⟨-, hfs, -⟩, htr⟩ := h
      refine ⟨hfs.symm, ?_⟩
      rw [← htr, processLoop_trace_eq]
      rw [List.map_append, List.map_append, loopTraceSpec_map_pct]
      simp [updateProgress]

/-- On the success path, `ingestListed` adds the 40/50 pre-loop updates
before the loop block. -/
theorem ingestListed_success_map (env : IngestEnv) (st : IngestState)
    (sid : String) (p4 : ProgressMap) (pre : List ProgressData)
    (st2 : IngestState) (sid2 : String) (fs : List DriveFile) (n : Nat)
    (tr : List ProgressData)
    (h : ingestListed env st sid p4 pre = (st2, .readySuccess sid2 fs n, tr)) :
    tr.map ProgressData.percentage =
      pre.map ProgressData.percentage ++
        ([40, 50] ++ (List.replicate (2 * fs.length) 50 ++ [70, 90, 100])) := by
  cases hl : env.listing with
  | error msg => simp [ingestListed, hl] at h
  | ok files =>
    by_cases hfe : files.isEmpty = true
    · simp [ingestListed, hl, hfe] at h
    · simp only [ingestListed, hl] at h
      rw [if_neg (by simp [hfe])] at h
      obtain ⟨hfs, hmap⟩ := ingestProcess_success_map env st sid files _ _
        st2 sid2 fs n tr h
      rw [hmap, List.map_append]
      subst hfs
      simp [updateProgress]

/-- On the success path, `ingestProcess` caches the accumulated chunks
under the session id. -/
theorem ingestProcess_store (env : IngestEnv) (st : IngestState)
    (sid : String) (files : List DriveFile) (p6 : ProgressMap)
    (pre : List ProgressData)
    (hde : ¬ (processLoop env sid files.length files 0 p6 []).2.1.isEmpty = true)
    (he : env.embed (processLoop env sid files.length files 0 p6 []).2.1 =
      .ok ()) :
    (ingestProcess env st sid files p6 pre).1.vectorStores =
      alSet st.vectorStores sid
        (processLoop env sid files.length files 0 p6 []).2.1 := by
  simp [ingestProcess, hde, he]

/-! ## Theorems -/

/-- C1: Idempotent ingestion short-circuit.  When a vector index is
already cached for the session, `ingestGET` returns the cache-hit
response with status `ready`, leaves the state (vector index and
progress record) unchanged, emits no progress updates, and its result is
independent of the external environment — in particular no remote
listing or file fetch outcome can influence it. -/
theorem claimC1_cache_short_circuit (env env' : IngestEnv) (st : IngestState)
    (sid : String) (h : alHas st.vectorStores sid = true) :
    ingestGET env st sid = (st, .readyCached sid, []) ∧
    (ingestGET env st sid).2.1.statusField = some "ready" ∧
    ingestGET env' st sid = ingestGET env st sid := by
  refine ⟨?_, ?_, ?_⟩ <;> simp [ingestGET, h, IngestResponse.statusField]

/-- Witness for C1 at a concrete cached state. -/
theorem claimC1_cache_short_circuit_witness :
    alHas (α := List Chunk) [("s", [])] "s" = true ∧
    ingestGET
      ⟨true, true, true, true, .ok [], fun _ => .error "off",
        fun _ => .error "off", fun _ => .ok ()⟩
      ⟨[("s", [])], []⟩ "s" = (⟨[("s", [])], []⟩, .readyCached "s", []) := by
  refine ⟨by decide, ?_⟩
  exact (claimC1_cache_short_circuit _
    ⟨true, true, true, true, .ok [], fun _ => .error "off",
      fun _ => .error "off", fun _ => .ok ()⟩
    ⟨[("s", [])], []⟩ "s" (by decide)).1

/-- C6: Content-extractor totality and placeholder contract.  The model
`parseFileContent` is a total function into `String` (the source's
`try`/`catch` means no decoder throw escapes); an unsupported MIME type
yields the fixed "Manual review needed" placeholder embedding file name
and type, and a decoder throw on a supported type yields the error
placeholder embedding the file name and the error message. -/
theorem claimC6_parseFileContent_placeholders (decode : Except String String)
    (mimeType fileName : String) :
    (supportedMime mimeType = false →
      parseFileContent decode mimeType fileName =
        "[File: " ++ fileName ++ " - Type: " ++ mimeType ++
          " - Manual review needed]") ∧
    (∀ msg, supportedMime mimeType = true → decode = .error msg →
      parseFileContent decode mimeType fileName =
        "[Error parsing file: " ++ fileName ++ " - " ++ msg ++ "]") := by
  constructor
  · intro h
    simp [parseFileContent, h]
  · intro msg hm hd
    subst hd
    simp [parseFileContent, hm]

/-- Witness for C6: an unsupported type and a failing PDF decode. -/
theorem claimC6_parseFileContent_placeholders_witness :
    parseFileContent (.ok "x") "image/png" "b.png" =
      "[File: " ++ "b.png" ++ " - Type: " ++ "image/png" ++
        " - Manual review needed]" ∧
    parseFileContent (.error "bad xref") "application/pdf" "a.pdf" =
      "[Error parsing file: " ++ "a.pdf" ++ " - " ++ "bad xref" ++ "]" :=
  ⟨(claimC6_parseFileContent_placeholders (.ok "x") "image/png" "b.png").1
      (by decide),
   (claimC6_parseFileContent_placeholders (.error "bad xref") "application/pdf"
      "a.pdf").2 "bad xref" (by decide) rfl⟩

/-- C8: Progress default record.  For a session with no stored progress
record, the progress read endpoint answers with the zeroed
"Not started" record (0/10 steps, 0 %, empty file, zero counts), and for
every session the read always produces a record response (it never
fails; being a pure function of the store, it has no side effects). -/
theorem claimC8_progress_default (store : ProgressMap) (sid : String)
    (h : alGet store sid = none) :
    progressGET store (some sid) =
      .record
        { currentStep := 0, totalSteps := 10, currentFile := "",
          status := "Not started", filesProcessed := 0, totalFiles := 0,
          percentage := 0 } ∧
    ∀ sid' : String, ∃ pd, progressGET store (some sid') = .record pd := by
  constructor
  · simp [progressGET, h]
  · intro sid'
    cases hg : alGet store sid' <;>
      exact ⟨_, by rw [progressGET]; rw [hg]⟩

/-- Witness for C8 on the empty store. -/
theorem claimC8_progress_default_witness :
    progressGET [] (some "session-1") =
      .record
        { currentStep := 0, totalSteps := 10, currentFile := "",
          status := "Not started", filesProcessed := 0, totalFiles := 0,
          percentage := 0 } :=
  (claimC8_progress_default [] "session-1" rfl).1

/-- C2: Progress percentage monotonicity.  For every ingestion run (any
environment, state and session), the sequence of percentage values
written by successive `updateProgress` calls is non-decreasing up to the
run's terminal update (`dropLast` removes the terminal one, which on the
two fatal paths resets the step to 0), and every stored percentage
equals `⌊currentStep / totalSteps · 100⌋`. -/
theorem claimC2_progress_monotone (env : IngestEnv) (st : IngestState)
    (sid : String) :
    List.Chain' (· ≤ ·)
      ((((ingestGET env st sid).2.2).dropLast).map ProgressData.percentage) ∧
    ∀ pd ∈ (ingestGET env st sid).2.2,
      pd.percentage = pd.currentStep * 100 / pd.totalSteps := by
  by_cases hc : alHas st.vectorStores sid
  · constructor <;> simp [ingestGET, hc]
  · by_cases hcfg : (env.hasClientEmail && env.hasPrivateKey &&
        env.hasFolderId && env.hasGeminiKey) = true
    · rw [ingestGET_main env st sid hc hcfg]
      exact ingestListed_spec env st sid (preListedMap st sid)
        (preListedTrace st sid)
        (by simp [preListedTrace, updateProgress, List.chain'_cons])
        (by simp [preListedTrace, updateProgress])
        (by simp [preListedTrace, updateProgress])
    · constructor <;> simp [ingestGET, hc, hcfg, updateProgress]

/-- C9: Phase-only percentages in the per-file loop.  (1) Every progress
record written by the per-file loop has `currentStep = 5` and hence
percentage 50, whatever `filesProcessed`/`totalFiles` it carries;
(2) the percentage computed by `updateProgress` does not depend on the
`filesProcessed`/`totalFiles` arguments at all; (3) on the successful
path the run's percentage sequence is exactly
`[0,10,20,30,40,50]`, then `50` twice per file, then `[70,90,100]` —
the jump past 50 happens only after the loop completes. -/
theorem claimC9_loop_percentage_phase_only (env : IngestEnv) (st : IngestState)
    (sid : String) :
    (∀ (tf : Nat) (files : List DriveFile) (i : Nat) (prog : ProgressMap)
        (acc : List Chunk),
      ∀ pd ∈ (processLoop env sid tf files i prog acc).2.2,
        pd.currentStep = 5 ∧ pd.percentage = 50) ∧
    (∀ (m : ProgressMap) (sid' : String) (step ts : Nat) (status cf : String)
        (fp1 tf1 fp2 tf2 : Nat),
      ((updateProgress m sid' step ts status cf fp1 tf1).2).percentage =
        ((updateProgress m sid' step ts status cf fp2 tf2).2).percentage) ∧
    (∀ (st' : IngestState) (sid2 : String) (fs : List DriveFile) (n : Nat)
        (tr : List ProgressData),
      ingestGET env st sid = (st', .readySuccess sid2 fs n, tr) →
      tr.map ProgressData.percentage =
        [0, 10, 20, 30, 40, 50] ++ List.replicate (2 * fs.length) 50 ++
          [70, 90, 100]) := by
  refine ⟨?_, ?_, ?_⟩
  · intro tf files i prog acc pd hpd
    have h2 : (processLoop env sid tf files i prog acc).2.2 =
        loopTraceSpec env tf files i :=
      congrArg Prod.snd (processLoop_snd env sid tf files i prog acc)
    rw [h2] at hpd
    obtain ⟨h5, _, h50⟩ := loopTraceSpec_mem env tf files i pd hpd
    exact ⟨h5, h50⟩
  · intro m sid' step ts status cf fp1 tf1 fp2 tf2
    rfl
  · intro st' sid2 fs n tr h
    by_cases hc : alHas st.vectorStores sid
    · simp [ingestGET, hc] at h
    · by_cases hcfg : (env.hasClientEmail && env.hasPrivateKey &&
          env.hasFolderId && env.hasGeminiKey) = true
      · rw [ingestGET_main env st sid hc hcfg] at h
        have hmap := ingestListed_success_map env st sid _ _ _ _ _ _ _ h
        rw [hmap]
        simp [preListedTrace, updateProgress]
      · simp [ingestGET, hc, hcfg, updateProgress] at h

/-- Witness for C9 on a successful two-file run: 2 files → 4 loop
updates at 50 %, then 70/90/100. -/
theorem claimC9_loop_percentage_phase_only_witness :
    List.map ProgressData.percentage (ingestGET envOk ⟨[], []⟩ "s").2.2 =
      [0, 10, 20, 30, 40, 50] ++ List.replicate (2 * 2) 50 ++ [70, 90, 100] :=
  (claimC9_loop_percentage_phase_only envOk ⟨[], []⟩ "s").2.2
    (ingestGET envOk ⟨[], []⟩ "s").1 "s" [fileA, fileB] 2
    (ingestGET envOk ⟨[], []⟩ "s").2.2 rfl

/-- C3 (counterexample to the claim as stated): in a two-file run where
file 0's *extraction* throws (`bad xref` from the PDF decoder), the claim
demands an errored-file progress update for file 0, but the run writes
none — `parseFileContent` swallows the decoder throw and the loop records
the file as "Processed", even indexing the error-placeholder chunk. -/
theorem claimC3_extraction_throw_counterexample :
    envDecodeFail0.fetchDecode 0 = .ok (.error "bad xref") ∧
    ((ingestGET envDecodeFail0 ⟨[], []⟩ "s").2.2).all
        (fun pd => !(pd.status == "Error processing: c.pdf")) = true ∧
    ((ingestGET envDecodeFail0 ⟨[], []⟩ "s").2.2).any
        (fun pd => pd.status == "Processed: c.pdf") = true ∧
    alGet (ingestGET envDecodeFail0 ⟨[], []⟩ "s").1.vectorStores "s" =
      some [⟨"[Error parsing file: c.pdf - bad xref]", "c.pdf", "id3",
              "application/pdf", none, 0, 1⟩,
            ⟨"hello world", "b.txt", "id2", "text/plain", none, 0, 1⟩] :=
  ⟨rfl, by decide, by decide, by decide⟩

/-- C3 (amended): per-file fault isolation for errors that reach the
per-file `catch` — a fetch throw or a splitter throw (`fileFails`); an
extraction throw is converted to placeholder text inside
`parseFileContent` instead.  If exactly one file `k` fails this way:
the loop still emits two updates for every one of the `N` files; an
"Error processing" update with `filesProcessed = k + 1` is written for
file `k`; the loop's last update has `filesProcessed = N`; file `k`
contributes no chunks; every other file's chunks reach the accumulated
collection; and when any chunks were produced and embedding succeeds,
the session's cached vector index is exactly that collection. -/
theorem claimC3_per_file_fault_isolation (env : IngestEnv) (st : IngestState)
    (sid : String) (files : List DriveFile) (k : Nat) (hk : k < files.length)
    (hc : alHas st.vectorStores sid = false)
    (hcfg : (env.hasClientEmail && env.hasPrivateKey && env.hasFolderId &&
      env.hasGeminiKey) = true)
    (hl : env.listing = .ok files)
    (hname : (files.get ⟨k, hk⟩).name ≠ "")
    (hfail : fileFails env k (files.get ⟨k, hk⟩) = true)
    (hothers : ∀ j (hj : j < files.length), j ≠ k →
      fileFails env j (files.get ⟨j, hj⟩) = false) :
    (∀ prog : ProgressMap,
      (processLoop env sid files.length files 0 prog []).2.2.length =
        2 * files.length) ∧
    (∀ prog : ProgressMap,
      ∃ pd ∈ (processLoop env sid files.length files 0 prog []).2.2,
        pd.status = "Error processing: " ++ (files.get ⟨k, hk⟩).name ∧
        pd.filesProcessed = k + 1) ∧
    (∀ prog : ProgressMap, ∃ pd,
      (processLoop env sid files.length files 0 prog []).2.2.getLast? =
        some pd ∧ pd.filesProcessed = files.length) ∧
    fileDocs env k (files.get ⟨k, hk⟩) = [] ∧
    (∀ prog : ProgressMap, ∀ j (hj : j < files.length), j ≠ k →
      ∀ c ∈ fileDocs env j (files.get ⟨j, hj⟩),
        c ∈ (processLoop env sid files.length files 0 prog []).2.1) ∧
    (loopDocs env files 0 ≠ [] → env.embed (loopDocs env files 0) = .ok () →
      alGet (ingestGET env st sid).1.vectorStores sid =
        some (loopDocs env files 0)) := by
  have hfiles : files ≠ [] := by
    intro h
    rw [h] at hk
    simp at hk
  have htr : ∀ prog : ProgressMap,
      (processLoop env sid files.length files 0 prog []).2.2 =
        loopTraceSpec env files.length files 0 := fun prog =>
    congrArg Prod.snd (processLoop_snd env sid files.length files 0 prog [])
  have hac : ∀ prog : ProgressMap,
      (processLoop env sid files.length files 0 prog []).2.1 =
        loopDocs env files 0 := fun prog => by
    have := congrArg Prod.fst (processLoop_snd env sid files.length files 0 prog [])
    simpa using this
  refine ⟨?_, ?_, ?_, ?_, ?_, ?_⟩
  · intro prog
    rw [htr prog, loopTraceSpec_length]
  · intro prog
    rw [htr prog]
    have := loopTraceSpec_error_mem env files.length files 0 k hk
      (by simpa using hfail) hname
    simpa using this
  · intro prog
    rw [htr prog]
    have := loopTraceSpec_getLast env files.length files 0 hfiles
    simpa using this
  · exact fileDocs_eq_nil_of_fails env k _ hfail
  · intro prog j hj hjk c hcmem
    rw [hac prog]
    exact fileDocs_subset_loopDocs env files 0 j hj c (by simpa using hcmem)
  · intro hde he
    have hfe : ¬ files.isEmpty = true := by
      cases files with
      | nil => exact absurd rfl hfiles
      | cons f r => simp
    have hc' : ¬ alHas st.vectorStores sid = true := by rw [hc]; simp
    have hstep : ingestGET env st sid =
        ingestProcess env st sid files
          (updateProgress (updateProgress (preListedMap st sid) sid 4 10
            ("Found " ++ toString files.length ++
              " documents. Initializing processing...") "" 0 files.length).1
            sid 5 10 "Processing documents..." "" 0 files.length).1
          (preListedTrace st sid ++
            [(updateProgress (preListedMap st sid) sid 4 10
              ("Found " ++ toString files.length ++
                " documents. Initializing processing...") "" 0 files.length).2,
             (updateProgress (updateProgress (preListedMap st sid) sid 4 10
              ("Found " ++ toString files.length ++
                " documents. Initializing processing...") "" 0 files.length).1
              sid 5 10 "Processing documents..." "" 0 files.length).2]) := by
      rw [ingestGET_main env st sid hc' hcfg]
      simp only [ingestListed, hl]
      rw [if_neg (by simp [hfe])]
    rw [hstep]
    have hacc := processLoop_acc_nil env sid files.length files 0
      (updateProgress (updateProgress (preListedMap st sid) sid 4 10
        ("Found " ++ toString files.length ++
          " documents. Initializing processing...") "" 0 files.length).1
        sid 5 10 "Processing documents..." "" 0 files.length).1
    have hde' : ¬ (processLoop env sid files.length files 0
        (updateProgress (updateProgress (preListedMap st sid) sid 4 10
          ("Found " ++ toString files.length ++
            " documents. Initializing processing...") "" 0 files.length).1
          sid 5 10 "Processing documents..." "" 0 files.length).1 []).2.1.isEmpty
        = true := by
      rw [hacc]
      simpa using hde
    rw [ingestProcess_store env st sid files _ _ hde' (by rw [hacc]; exact he),
      hacc, alGet_alSet_self]

/-- Witness for C3 (amended) at a concrete two-file run in which the
first file's fetch throws. -/
theorem claimC3_per_file_fault_isolation_witness :
    (processLoop envFetchFail0 "s" 2 [fileA, fileB] 0 [] []).2.2.length =
        2 * 2 ∧
    (∃ pd ∈ (processLoop envFetchFail0 "s" 2 [fileA, fileB] 0 [] []).2.2,
      pd.status = "Error processing: " ++ "a.txt" ∧ pd.filesProcessed = 1) ∧
    fileDocs envFetchFail0 0 fileA = [] ∧
    alGet (ingestGET envFetchFail0 ⟨[], []⟩ "s").1.vectorStores "s" =
      some (loopDocs envFetchFail0 [fileA, fileB] 0) := by
  have h := claimC3_per_file_fault_isolation envFetchFail0 ⟨[], []⟩ "s"
    [fileA, fileB] 0 (by decide) rfl rfl rfl (by decide) (by decide)
    (by intro j hj hjk
        match j, hj with
        | 0, _ => exact absurd rfl hjk
        | 1, hj1 =>
          have hgb : [fileA, fileB].get ⟨1, hj1⟩ = fileB := rfl
          rw [hgb]
          decide)
  refine ⟨h.1 [], ?_, h.2.2.2.1, h.2.2.2.2.2 (by decide) rfl⟩
  have h2 := h.2.1 []
  simpa using h2

/-- C10: Placeholder text is chunked and indexed like real text.  Under
the Chunker's contract (non-blank input yields a non-empty chunk list,
no throw), a file whose MIME type is unsupported or whose decoder throws
still contributes chunks — `parseFileContent` returns a non-blank
placeholder — and a file contributes no chunks exactly when its fetch
throws or its extracted text is blank. -/
theorem claimC10_placeholder_indexing (env : IngestEnv)
    (hsplit : ∀ s : String, isBlank s = false →
      ∃ l, env.split s = Except.ok l ∧ l ≠ [])
    (i : Nat) (f : DriveFile) :
    (∀ d : Except String String, supportedMime f.mimeType = false →
      isBlank (parseFileContent d f.mimeType f.name) = false) ∧
    (∀ msg : String,
      isBlank (parseFileContent (.error msg) f.mimeType f.name) = false) ∧
    (∀ (d : Except String String) (msg : String),
      env.fetchDecode i = .ok d →
      (supportedMime f.mimeType = false ∨ d = .error msg) →
      fileDocs env i f ≠ []) ∧
    (fileDocs env i f = [] ↔
      (∃ e, env.fetchDecode i = .error e) ∨
      (∃ d, env.fetchDecode i = .ok d ∧
        isBlank (parseFileContent d f.mimeType f.name) = true)) := by
  have hunsup : ∀ d : Except String String, supportedMime f.mimeType = false →
      isBlank (parseFileContent d f.mimeType f.name) = false := by
    intro d hsm
    rw [parseFileContent.eq_def, if_neg (by simp [hsm])]
    simp [isBlank_append, show isBlank "[File: " = false from rfl]
  have herr : ∀ msg : String,
      isBlank (parseFileContent (.error msg) f.mimeType f.name) = false := by
    intro msg
    by_cases hsm : supportedMime f.mimeType = true
    · rw [parseFileContent.eq_def, if_pos hsm]
      simp [isBlank_append,
        show isBlank "[Error parsing file: " = false from rfl]
    · exact hunsup _ (by simpa using hsm)
  have hnonnil : ∀ d : Except String String, env.fetchDecode i = .ok d →
      isBlank (parseFileContent d f.mimeType f.name) = false →
      fileDocs env i f ≠ [] := by
    intro d hfd hnb
    obtain ⟨l, hsl, hlne⟩ := hsplit _ hnb
    rw [fileDocs, hfd]
    simp only [hnb, Bool.false_eq_true, if_neg, hsl]
    intro hcontra
    have : l.length = 0 := by
      have := congrArg List.length hcontra
      simpa using this
    exact hlne (List.length_eq_zero.mp this)
  refine ⟨hunsup, herr, ?_, ?_⟩
  · intro d msg hfd hor
    refine hnonnil d hfd ?_
    rcases hor with h | rfl
    · exact hunsup d h
    · exact herr msg
  · constructor
    · intro hnil
      cases hfd : env.fetchDecode i with
      | error e => exact Or.inl ⟨e, rfl⟩
      | ok d =>
        by_cases hb : isBlank (parseFileContent d f.mimeType f.name) = true
        · exact Or.inr ⟨d, rfl, hb⟩
        · exact absurd hnil (hnonnil d hfd (by simpa using hb))
    · intro h
      rcases h with ⟨e, he⟩ | ⟨d, hd, hb⟩
      · rw [fileDocs, he]
      · rw [fileDocs, hd]
        simp [hb]

/-- Witness for C10: the failing PDF decode of `envDecodeFail0` still
contributes a (placeholder) chunk, while the failing fetch of
`envFetchFail0` contributes none. -/
theorem claimC10_placeholder_indexing_witness :
    isBlank (parseFileContent (.error "bad xref") "application/pdf" "c.pdf")
        = false ∧
    fileDocs envDecodeFail0 0 filePdf ≠ [] ∧
    (fileDocs envFetchFail0 0 fileA = [] ↔
      (∃ e, envFetchFail0.fetchDecode 0 = .error e) ∨
      (∃ d, envFetchFail0.fetchDecode 0 = .ok d ∧
        isBlank (parseFileContent d fileA.mimeType fileA.name) = true)) := by
  have hsplit0 : ∀ s : String, isBlank s = false →
      ∃ l, envDecodeFail0.split s = Except.ok l ∧ l ≠ [] :=
    fun s _ => ⟨[s], rfl, by simp⟩
  have hsplit1 : ∀ s : String, isBlank s = false →
      ∃ l, envFetchFail0.split s = Except.ok l ∧ l ≠ [] :=
    fun s _ => ⟨[s], rfl, by simp⟩
  have h0 := claimC10_placeholder_indexing envDecodeFail0 hsplit0 0 filePdf
  have h1 := claimC10_placeholder_indexing envFetchFail0 hsplit1 0 fileA
  exact ⟨h0.2.1 "bad xref", h0.2.2.1 (.error "bad xref") "bad xref" rfl
    (Or.inr rfl), h1.2.2.2⟩

/-- C5: Provider circuit-breaking.  When the primary provider (gemini)
is available and fails with a message matching the overload/quota/503
signature, the loop marks it unavailable until `now + 60000`, continues
to the next provider in order (openai, whose success is returned), and
any later request at a time still inside the cooldown window skips
gemini without invoking it, going straight to openai. -/
theorem claimC5_provider_circuit_breaking
    (invoke invoke2 : String → Except String String)
    (now now2 gu ou : Nat) (msg r r2 : String)
    (hgu : gu ≤ now) (hou : ou ≤ now)
    (hg : invoke "gemini" = .error msg)
    (hsig : overloadSignature msg = true)
    (ho : invoke "openai" = .ok r)
    (hnow2 : now2 < now + 60000) (hou2 : ou ≤ now2)
    (ho2 : invoke2 "openai" = .ok r2) :
    runProviders invoke now [⟨"gemini", gu⟩, ⟨"openai", ou⟩]
        providerOrder none [] =
      ([⟨"gemini", now + 60000⟩, ⟨"openai", ou⟩], some r, some msg,
        ["gemini", "openai"]) ∧
    runProviders invoke2 now2 [⟨"gemini", now + 60000⟩, ⟨"openai", ou⟩]
        providerOrder none [] =
      ([⟨"gemini", now + 60000⟩, ⟨"openai", ou⟩], some r2, none,
        ["openai"]) := by
  have ha1 : providerAvailable ⟨"gemini", gu⟩ now = true := by
    simp [providerAvailable]; omega
  have ha2 : providerAvailable ⟨"openai", ou⟩ now = true := by
    simp [providerAvailable]; omega
  have ha3 : providerAvailable ⟨"gemini", now + 60000⟩ now2 = false := by
    simp [providerAvailable]; omega
  have ha4 : providerAvailable ⟨"openai", ou⟩ now2 = true := by
    simp [providerAvailable]; omega
  constructor
  · simp [runProviders, providerOrder, getProvider, markProviderUnavailable,
      ha1, ha2, hg, hsig, ho]
  · simp [runProviders, providerOrder, getProvider, ha3, ha4, ho2]

/-- Witness for C5: gemini raises a 503 at time 0, openai answers; a
second request at time 59999 (inside the one-minute cooldown) skips
straight to openai. -/
theorem claimC5_provider_circuit_breaking_witness :
    runProviders
        (fun n => if n = "gemini" then .error "503 Service Unavailable"
          else .ok "first answer") 0
        [⟨"gemini", 0⟩, ⟨"openai", 0⟩] providerOrder none [] =
      ([⟨"gemini", 0 + 60000⟩, ⟨"openai", 0⟩], some "first answer",
        some "503 Service Unavailable", ["gemini", "openai"]) ∧
    runProviders (fun _ => .ok "second answer") 59999
        [⟨"gemini", 0 + 60000⟩, ⟨"openai", 0⟩] providerOrder none [] =
      ([⟨"gemini", 0 + 60000⟩, ⟨"openai", 0⟩], some "second answer", none,
        ["openai"]) :=
  claimC5_provider_circuit_breaking
    (fun n => if n = "gemini" then .error "503 Service Unavailable"
      else .ok "first answer")
    (fun _ => .ok "second answer") 0 59999 0 0
    "503 Service Unavailable" "first answer" "second answer"
    (by decide) (by decide) rfl (by decide) rfl (by decide) (by decide) rfl

/-- C4 (counterexample to the claim as stated): a chat request whose
retrieval produced a non-empty chunk list, issued while *no* provider is
available (both inside a cooldown window), returns an *empty* content
string: the fallback synthesis is guarded by `!response && lastError`,
and with no provider attempted `lastError` stays `null`. -/
theorem claimC4_none_available_counterexample :
    extractNumericId "hello there" = none ∧
    (selectRelevantDocs (fun _ => [fillerDoc]) "hello there"
        ⟨false, none, none, none⟩) ≠ [] ∧
    (chatPOST (fun _ => [fillerDoc]) (fun _ => .error "boom") 0
        [⟨"gemini", 100⟩, ⟨"openai", 100⟩]
        ⟨"hello there", ⟨false, none, none, none⟩, false⟩ "no documents").2 =
      { content := "", sources := [⟨"f", "fid", 1⟩],
        providersAttempted := [] } :=
  ⟨by decide, by decide, by decide⟩

/-- C4 (amended): total fallback exhaustion produces output *provided at
least one provider was attempted*.  For every chat request with a
non-empty retrieval whose provider loop ends with no response and a
recorded last error, the handler returns exactly the synthesized
fallback: a non-empty string derived from the already-retrieved context,
which for entity-specific queries lists the file name of every retrieved
chunk matching the identifier; no exception escapes (the handler is a
total function).  When no provider was available at all, the content is
the empty string instead (see the counterexample). -/
theorem claimC4_fallback_exhaustion
    (rank : String → List ChatDoc) (invoke : String → Except String String)
    (now : Nat) (provs provs' : List Provider) (req : ChatRequest)
    (noDocsMsg msg : String) (attempted : List String)
    (hsel : selectRelevantDocs rank req.query req.flags ≠ [])
    (hrun : runProviders invoke now provs providerOrder none [] =
      (provs', none, some msg, attempted)) :
    (chatPOST rank invoke now provs req noDocsMsg).2.content =
      fallbackResponse req.isGerman
        (req.flags.elevatorIdMatch <|> req.flags.numericIdMatch)
        (chatProcessedDocs rank req) ∧
    (chatPOST rank invoke now provs req noDocsMsg).2.content ≠ "" ∧
    (∀ id, (req.flags.elevatorIdMatch <|> req.flags.numericIdMatch) = some id →
      ∀ fn ∈ ((chatProcessedDocs rank req).filter (docMatchesId id)).map
          ChatDoc.fileName,
        strIncludes ((chatPOST rank invoke now provs req noDocsMsg).2.content)
          ("• " ++ fn) = true) := by
  have hcontent : (chatPOST rank invoke now provs req noDocsMsg).2.content =
      fallbackResponse req.isGerman
        (req.flags.elevatorIdMatch <|> req.flags.numericIdMatch)
        (chatProcessedDocs rank req) := by
    simp [chatPOST, hrun, chatProcessedDocs, hsel]
  refine ⟨hcontent, ?_, ?_⟩
  · rw [hcontent]
    exact fallbackResponse_ne_empty _ _ _
  · intro id hid fn hfn
    rw [hcontent, hid]
    exact fallbackResponse_mentions_files _ _ _ fn hfn

/-- Witness for C4 (amended): both providers fail with a quota error on
an entity-specific query; the answer is non-empty and lists the matching
file. -/
theorem claimC4_fallback_exhaustion_witness :
    (chatPOST (fun _ => [targetDoc]) (fun _ => .error "quota exceeded") 0
        [⟨"gemini", 0⟩, ⟨"openai", 0⟩]
        ⟨"where is 123456", ⟨false, none, none, some "123456"⟩, false⟩
        "no documents").2.content ≠ "" ∧
    strIncludes
      ((chatPOST (fun _ => [targetDoc]) (fun _ => .error "quota exceeded") 0
        [⟨"gemini", 0⟩, ⟨"openai", 0⟩]
        ⟨"where is 123456", ⟨false, none, none, some "123456"⟩, false⟩
        "no documents").2.content) ("• " ++ "t.pdf") = true := by
  have h := claimC4_fallback_exhaustion (fun _ => [targetDoc])
    (fun _ => .error "quota exceeded") 0 [⟨"gemini", 0⟩, ⟨"openai", 0⟩]
    [⟨"gemini", 0 + 60000⟩, ⟨"openai", 0 + 60000⟩]
    ⟨"where is 123456", ⟨false, none, none, some "123456"⟩, false⟩
    "no documents" "quota exceeded" ["gemini", "openai"]
    (by decide) (by decide)
  exact ⟨h.2.1, h.2.2 "123456" rfl "t.pdf" (by decide)⟩

theorem elevatorEscalation_complete (rank : String → List ChatDoc)
    (corpus : List ChatDoc) (id : String) (R1 : List ChatDoc)
    (hperm : (rank id).Perm corpus) (hsize : corpus.length ≤ 100)
    (hmatch : ∃ c ∈ corpus, docMatchesId id c = true) :
    ∃ c, docMatchesId id c = true ∧ c ∈ elevatorEscalation rank id R1 := by
  by_cases hany : R1.any (docMatchesId id) = true
  · obtain ⟨c, hcmem, hcm⟩ := List.any_eq_true.mp hany
    refine ⟨c, hcm, ?_⟩
    rw [elevatorEscalation, if_pos hany]
    exact hcmem
  · obtain ⟨c0, hc0mem, hc0⟩ := hmatch
    have htake : similaritySearch rank id 100 = rank id := by
      rw [similaritySearch]
      apply List.take_of_length_le
      rw [hperm.length_eq]
      exact hsize
    have hc0r : c0 ∈ rank id := hperm.mem_iff.mpr hc0mem
    have hfil : c0 ∈ (rank id).filter (docMatchesId id) :=
      List.mem_filter.mpr ⟨hc0r, hc0⟩
    have hne : ((rank id).filter (docMatchesId id)).isEmpty = false := by
      cases hq : (rank id).filter (docMatchesId id) with
      | nil => rw [hq] at hfil; simp at hfil
      | cons a t => rfl
    refine ⟨c0, hc0, ?_⟩
    rw [elevatorEscalation, if_neg hany]
    simp only [htake, hne, Bool.false_eq_true, if_false]
    exact List.mem_append.mpr (Or.inl hfil)

/-- C7 (counterexample to the claim as stated): over a 101-chunk corpus
whose only identifier-bearing chunk is ranked last by every search (a
ranking the similarity collaborator is free to produce), the primary
8-result search misses it, the 100-result escalation search also misses
it, every alternative term's 50-result search misses it, and the final
selected list contains no chunk with the identifier — the escalation is
bounded, not complete. -/
theorem claimC7_escalation_counterexample :
    corpus101.any (docMatchesId "123456") = true ∧
    extractNumericId "where is 123456" = some "123456" ∧
    (similaritySearch advRank "where is 123456" 8).any
        (docMatchesId "123456") = false ∧
    (selectRelevantDocs advRank "where is 123456"
        ⟨false, none, none, some "123456"⟩).any
        (docMatchesId "123456") = false :=
  ⟨by decide, by decide, by decide, by decide⟩

/-- C7 (amended): entity-specific escalation completeness holds for
corpora of at most 100 chunks.  For every non-overview query classified
as entity-specific, over a vector store whose ranking returns a
permutation of the corpus, if any corpus chunk matches the identifier
(content, filename, or identifier tag) then the final selected list
contains a matching chunk — because the escalation's 100-result search
then covers the whole corpus.  (For larger corpora the escalation is
best-effort only; see the counterexample.) -/
theorem claimC7_entity_escalation (rank : String → List ChatDoc)
    (corpus : List ChatDoc) (query id : String) (flags : QueryFlags)
    (hperm : ∀ q, (rank q).Perm corpus)
    (hsize : corpus.length ≤ 100)
    (heid : (flags.elevatorIdMatch <|> flags.numericIdMatch) = some id)
    (hov : flags.isOverviewQuery = false)
    (hmatch : ∃ c ∈ corpus, docMatchesId id c = true) :
    ∃ c, docMatchesId id c = true ∧
      c ∈ selectRelevantDocs rank query flags := by
  simp only [selectRelevantDocs, heid, hov]
  exact elevatorEscalation_complete rank corpus id _ (hperm id) hsize hmatch

/-- Witness for C7 (amended) over a 51-chunk corpus whose only matching
chunk is ranked last everywhere: the escalation still selects it. -/
theorem claimC7_entity_escalation_witness :
    ∃ c, docMatchesId "123456" c = true ∧
      c ∈ selectRelevantDocs smallRank "where is 123456"
        ⟨false, none, none, some "123456"⟩ :=
  claimC7_entity_escalation smallRank corpus51 "where is 123456" "123456"
    ⟨false, none, none, some "123456"⟩
    (fun _ => List.Perm.refl corpus51) (by decide) rfl rfl
    ⟨targetDoc, by decide, by decide⟩

end GDrive
